import Mathlib

/-!
# Verification of the S3 uploader pipeline (`s3_uploader.py`)

Shallow embedding of the readiness-tracker / upload-executor / reconciliation
pipeline from `s3_uploader.py`, together with proofs of the specification's
claims about it.

Conventions of the embedding:

* The remote store client (`boto3` S3 client) is modelled as a `Client`: a pair
  of functions giving, for each attempt index, the outcome of the `upload_file`
  (put) call and of the `head_object` (metadata) call on that attempt.
  `PutResult.ok` is a normal return, `PutResult.clientError` is a raised
  `ClientError` (caught by the first `except` clause at line 138 of the
  source), and `PutResult.otherError` is any other exception (caught by the
  `except Exception` clause at line 149).
* Time is an `Int` number of seconds (the source uses `time.time()` floats;
  only comparisons and subtraction matter).
* The `pending_files` dict of `VideoFileHandler` is an association list with
  Python-dict update/lookup/pop semantics (`dictSet`, `dictGet`, `dictPop`).
* Blocking sleeps are recorded in a trace (`UploadTrace.sleeps`) instead of
  actually sleeping; log statements are dropped.
-/

/-- Outcome of one `s3_client.upload_file` (put) call, i.e. of one iteration's
body up to verification: normal return, a raised `botocore` `ClientError`, or
any other exception. -/
inductive PutResult where
  | ok : PutResult
  | clientError : PutResult
  | otherError : PutResult
deriving DecidableEq, Repr

/-- Outcome of one `s3_client.head_object` call within `verify_upload`: the
reported `ContentLength`, or a raised `ClientError`. -/
inductive HeadResult where
  | size : Nat → HeadResult
  | headError : HeadResult
deriving DecidableEq, Repr

/-- The remote store client, as observed by one upload task: the result of the
put and of the metadata fetch on each attempt index (0-based). -/
structure Client where
  put : Nat → PutResult
  head : Nat → HeadResult

/-- Trace of one `S3Uploader.upload_file` call: the returned boolean, the
number of put attempts actually performed, and the list of back-off sleeps
(`time.sleep` arguments, in seconds) in order. -/
structure UploadTrace where
  success : Bool
  attempts : Nat
  sleeps : List Nat
deriving DecidableEq, Repr

/-- `S3Uploader.verify_upload` (source lines 155-181): fetch the remote
object's metadata and compare the reported content length with the local
file's size.  A `ClientError` from `head_object` returns `False`. -/
def verify_upload (c : Client) (local_size : Nat) (attempt : Nat) : Bool :=
  match c.head attempt with
  | HeadResult.size s3_size => local_size == s3_size
  | HeadResult.headError => false

/-- The body of the retry loop of `S3Uploader.upload_file` (source lines
120-153), starting at a given attempt index with the given number of loop
iterations (`fuel`) remaining.  Running out of fuel is the `for` loop ending,
which falls through to `return False` (line 153).  On `PutResult.ok` the
upload is verified: success returns `True`, failure logs a warning and falls
through to the next iteration with no sleep.  On `PutResult.clientError` the
executor sleeps `initial_delay * 2 ^ attempt` seconds and retries, unless
`attempt < max_retries` fails, in which case it returns `False`.  Any other
exception returns `False` immediately. -/
def uploadLoop (c : Client) (local_size initial_delay max_retries : Nat) :
    Nat → Nat → UploadTrace
  | _, 0 => { success := false, attempts := 0, sleeps := [] }
  | attempt, fuel + 1 =>
    match c.put attempt with
    | PutResult.ok =>
      if verify_upload c local_size attempt then
        { success := true, attempts := 1, sleeps := [] }
      else
        let t := uploadLoop c local_size initial_delay max_retries (attempt + 1) fuel
        { success := t.success, attempts := t.attempts + 1, sleeps := t.sleeps }
    | PutResult.clientError =>
      if attempt < max_retries then
        let t := uploadLoop c local_size initial_delay max_retries (attempt + 1) fuel
        { success := t.success, attempts := t.attempts + 1,
          sleeps := initial_delay * 2 ^ attempt :: t.sleeps }
      else
        { success := false, attempts := 1, sleeps := [] }
    | PutResult.otherError => { success := false, attempts := 1, sleeps := [] }

/-- `S3Uploader.upload_file` (source lines 108-153):
`for attempt in range(max_retries + 1)` starting at attempt 0. -/
def upload_file (c : Client) (local_size max_retries initial_delay : Nat) :
    UploadTrace :=
  uploadLoop c local_size initial_delay max_retries 0 (max_retries + 1)

example :
    upload_file { put := fun _ => PutResult.clientError,
                  head := fun _ => HeadResult.headError } 10 3 5 =
      { success := false, attempts := 4, sleeps := [5, 10, 20] } := by decide

example :
    upload_file { put := fun _ => PutResult.ok,
                  head := fun _ => HeadResult.size 10 } 10 3 5 =
      { success := true, attempts := 1, sleeps := [] } := by decide

example :
    upload_file { put := fun _ => PutResult.ok,
                  head := fun i => if i = 0 then HeadResult.size 9 else HeadResult.size 10 }
        10 3 5 =
      { success := true, attempts := 2, sleeps := [] } := by decide

/-! ## The readiness tracker (`VideoFileHandler`) -/

/-- The `pending_files` dict of `VideoFileHandler`: path → last-touched
timestamp (seconds). -/
abbrev Registry := List (String × Int)

/-- Python dict lookup `d.get(k)` / `k in d`. -/
def dictGet : Registry → String → Option Int
  | [], _ => none
  | (k, v) :: rest, p => if k = p then some v else dictGet rest p

/-- Python dict assignment `d[k] = v`: update in place if the key is present,
otherwise append (Python dicts preserve insertion order). -/
def dictSet : Registry → String → Int → Registry
  | [], p, t => [(p, t)]
  | (k, v) :: rest, p, t =>
    if k = p then (p, t) :: rest else (k, v) :: dictSet rest p t

/-- Python `d.pop(k, None)`: remove the key if present. -/
def dictPop : Registry → String → Registry
  | [], _ => []
  | (k, v) :: rest, p =>
    if k = p then dictPop rest p else (k, v) :: dictPop rest p

/-- The basename of a path: the characters after the last `/`
(`os.path` separator handling inside `os.path.splitext`). -/
def afterLastSep (cs : List Char) : List Char :=
  cs.foldl (fun acc c => if c = '/' then [] else acc ++ [c]) []

/-- The suffix of a character list starting at its last `.`, if any. -/
def lastDotSuffix : List Char → Option (List Char)
  | [] => none
  | c :: rest =>
    match lastDotSuffix rest with
    | some s => some s
    | none => if c = '.' then some (c :: rest) else none

/-- `os.path.splitext(path)[1]`: the extension starts at the last dot of the
basename, except that a basename consisting of leading dots only up to that
dot (e.g. `.bashrc`, `..mp4`) has no extension. -/
def splitextExtension (path : String) : String :=
  let base := afterLastSep path.toList
  match lastDotSuffix base with
  | none => ""
  | some suffix =>
    if (base.take (base.length - suffix.length)).any (fun c => c != '.') then
      String.mk suffix
    else ""

/-- `VideoFileHandler.is_video_file` (source lines 218-221): the
`os.path.splitext` extension is a member of the configured extension list
(case-sensitive string membership). -/
def is_video_file (exts : List String) (path : String) : Bool :=
  exts.contains (splitextExtension path)

/-- A watchdog filesystem event, as consumed by the handler: a directory flag
and a source path. -/
structure FsEvent where
  is_directory : Bool
  src_path : String

/-- `VideoFileHandler.on_created` (source lines 193-205): ignore directory
events and non-video paths; otherwise record `pending_files[path] = now`. -/
def on_created (exts : List String) (st : Registry) (ev : FsEvent) (now : Int) :
    Registry :=
  if ev.is_directory then st
  else if is_video_file exts ev.src_path then dictSet st ev.src_path now
  else st

/-- `VideoFileHandler.on_modified` (source lines 207-216): ignore directory
events; update the timestamp only for paths already in `pending_files`. -/
def on_modified (st : Registry) (ev : FsEvent) (now : Int) : Registry :=
  if ev.is_directory then st
  else
    match dictGet st ev.src_path with
    | some _ => dictSet st ev.src_path now
    | none => st

/-- `VideoFileHandler.is_file_ready` (source lines 223-236): a tracked path is
ready when `now - pending_files[path] >= threshold`; an untracked path is not
ready. -/
def is_file_ready (st : Registry) (threshold now : Int) (path : String) : Bool :=
  match dictGet st path with
  | none => false
  | some t => threshold ≤ now - t

/-- The environment a sweep runs in: the state of the local filesystem
(`os.path.exists`, `os.path.getsize`), the remote client behaviour each path's
upload task would observe, and the retry configuration. -/
structure SweepEnv where
  file_exists : String → Bool
  file_size : String → Nat
  client : String → Client
  max_retries : Nat
  initial_delay : Nat

/-- Accumulated effects of the `for` loop of
`VideoFileHandler.process_pending_files`: the `files_to_remove` list, the
paths whose upload was attempted (with the trace of that attempt), and the
paths for which `os.remove` was invoked. -/
structure SweepAcc where
  remove : List String
  uploaded : List (String × UploadTrace)
  deleted : List String
deriving DecidableEq, Repr

/-- The `for` loop of `process_pending_files` (source lines 242-262) over the
snapshot of tracked keys: a missing path is only scheduled for removal; a
ready path is uploaded, deleted on success (an `os.remove` failure is only
logged), and scheduled for removal regardless of the outcome; a path that is
neither is left alone. -/
def sweepLoop (env : SweepEnv) (st : Registry) (threshold now : Int) :
    List String → SweepAcc
  | [] => { remove := [], uploaded := [], deleted := [] }
  | p :: rest =>
    let acc := sweepLoop env st threshold now rest
    if env.file_exists p = false then
      { acc with remove := p :: acc.remove }
    else if is_file_ready st threshold now p then
      let tr := upload_file (env.client p) (env.file_size p)
          env.max_retries env.initial_delay
      { remove := p :: acc.remove,
        uploaded := (p, tr) :: acc.uploaded,
        deleted := if tr.success then p :: acc.deleted else acc.deleted }
    else acc

/-- Result of one `process_pending_files` call: the registry afterwards and
the performed side effects. -/
structure SweepOutcome where
  registry : Registry
  uploaded : List (String × UploadTrace)
  deleted : List String

/-- `VideoFileHandler.process_pending_files` (source lines 238-266): run the
loop over `list(pending_files.keys())`, then pop every processed path. -/
def process_pending_files (env : SweepEnv) (st : Registry)
    (threshold now : Int) : SweepOutcome :=
  let acc := sweepLoop env st threshold now (st.map Prod.fst)
  { registry := acc.remove.foldl dictPop st,
    uploaded := acc.uploaded,
    deleted := acc.deleted }

/-! ## The reconciliation scanner (`S3UploaderService.upload_existing_files`) -/

/-- The environment of a reconciliation pass: the watched directory's current
listing (file names), the configured extensions, the per-path client
behaviour, sizes, and retry configuration. -/
structure ScanEnv where
  dir_files : List String
  exts : List String
  client : String → Client
  file_size : String → Nat
  max_retries : Nat
  initial_delay : Nat

/-- `pre` is a prefix of `l` (character lists). -/
def listStarts : List Char → List Char → Bool
  | [], _ => true
  | _ :: _, [] => false
  | a :: as, b :: bs => a == b && listStarts as bs

/-- `ext` is a suffix of `f` (strings). -/
def strEnds (f ext : String) : Bool :=
  listStarts ext.toList.reverse f.toList.reverse

/-- `f` begins with a dot (a hidden file). -/
def strHidden (f : String) : Bool :=
  listStarts ['.'] f.toList

/-- `glob.glob(os.path.join(dir, "*" + ext))` restricted to one directory:
names ending in `ext`, excluding hidden files (glob's `*` does not match a
leading dot), in listing order. -/
def glob_matches (dir_files : List String) (ext : String) : List String :=
  dir_files.filter (fun f => strEnds f ext && !(strHidden f))

/-- The `video_files` list built by `upload_existing_files` (source lines
337-340): the glob results of each configured extension, concatenated in
configuration order. -/
def matching_files (dir_files : List String) : List String → List String
  | [] => []
  | e :: rest => glob_matches dir_files e ++ matching_files dir_files rest

/-- The trace `upload_existing_files` obtains for one candidate file. -/
def scan_trace (env : ScanEnv) (f : String) : UploadTrace :=
  upload_file (env.client f) (env.file_size f) env.max_retries env.initial_delay

/-- Aggregated result of the reconciliation loop. -/
structure ScanOutcome where
  processed : List (String × UploadTrace)
  success_count : Nat
  failure_count : Nat
  deleted : List String

/-- The `for` loop of `upload_existing_files` (source lines 352-373): every
candidate is uploaded; success deletes the file and increments
`success_count` (even if `os.remove` fails); failure increments
`failure_count`.  The loop never stops early. -/
def scanLoop (env : ScanEnv) : List String → ScanOutcome
  | [] => { processed := [], success_count := 0, failure_count := 0, deleted := [] }
  | f :: rest =>
    let tr := scan_trace env f
    let o := scanLoop env rest
    if tr.success then
      { processed := (f, tr) :: o.processed,
        success_count := o.success_count + 1,
        failure_count := o.failure_count,
        deleted := f :: o.deleted }
    else
      { processed := (f, tr) :: o.processed,
        success_count := o.success_count,
        failure_count := o.failure_count + 1,
        deleted := o.deleted }

/-- `S3UploaderService.upload_existing_files` (source lines 327-378): run the
loop over the glob candidates and return `failure_count == 0`. -/
def upload_existing_files (env : ScanEnv) : ScanOutcome × Bool :=
  let o := scanLoop env (matching_files env.dir_files env.exts)
  (o, o.failure_count == 0)

/-- The exit status of `main` in `--upload-existing` mode without
`--continue-watching` (source lines 476-487): `sys.exit(1)` when
`upload_existing_files` reported failures, otherwise fall through to a normal
exit 0. -/
def reconcile_exit (env : ScanEnv) : Nat :=
  if (upload_existing_files env).2 then 0 else 1

/-! ## Branch lemmas for the retry loop -/

/-- The attempt on which a task succeeds: the put returned normally and the
metadata fetch reported a content length equal to the local size. -/
def succeedsAt (c : Client) (local_size i : Nat) : Prop :=
  c.put i = PutResult.ok ∧ c.head i = HeadResult.size local_size

/-- An attempt after which the loop goes on to another attempt: a
`ClientError` from the put while attempts remain, or a put that succeeded but
failed verification. -/
def continuesAt (c : Client) (local_size max_retries i : Nat) : Prop :=
  (c.put i = PutResult.clientError ∧ i < max_retries) ∨
  (c.put i = PutResult.ok ∧ c.head i ≠ HeadResult.size local_size)

lemma verify_upload_true_iff (c : Client) (ls i : Nat) :
    verify_upload c ls i = true ↔ c.head i = HeadResult.size ls := by
  cases h : c.head i with
  | size n =>
    simp only [verify_upload, h, beq_iff_eq]
    constructor
    · intro e
      rw [e]
    · intro e
      injection e with e'
      exact e'.symm
  | headError => simp [verify_upload, h]

lemma uploadLoop_ok_verified (c : Client) (ls d m attempt f : Nat)
    (h1 : c.put attempt = PutResult.ok)
    (h2 : verify_upload c ls attempt = true) :
    uploadLoop c ls d m attempt (f + 1) =
      { success := true, attempts := 1, sleeps := [] } := by
  simp [uploadLoop, h1, h2]

lemma uploadLoop_ok_unverified (c : Client) (ls d m attempt f : Nat)
    (h1 : c.put attempt = PutResult.ok)
    (h2 : verify_upload c ls attempt = false) :
    uploadLoop c ls d m attempt (f + 1) =
      { success := (uploadLoop c ls d m (attempt + 1) f).success,
        attempts := (uploadLoop c ls d m (attempt + 1) f).attempts + 1,
        sleeps := (uploadLoop c ls d m (attempt + 1) f).sleeps } := by
  simp only [uploadLoop, h1, h2, Bool.false_eq_true, if_false]

lemma uploadLoop_clientError_retry (c : Client) (ls d m attempt f : Nat)
    (h1 : c.put attempt = PutResult.clientError)
    (h2 : attempt < m) :
    uploadLoop c ls d m attempt (f + 1) =
      { success := (uploadLoop c ls d m (attempt + 1) f).success,
        attempts := (uploadLoop c ls d m (attempt + 1) f).attempts + 1,
        sleeps := d * 2 ^ attempt :: (uploadLoop c ls d m (attempt + 1) f).sleeps } := by
  simp [uploadLoop, h1, h2]

lemma uploadLoop_clientError_stop (c : Client) (ls d m attempt f : Nat)
    (h1 : c.put attempt = PutResult.clientError)
    (h2 : ¬ attempt < m) :
    uploadLoop c ls d m attempt (f + 1) =
      { success := false, attempts := 1, sleeps := [] } := by
  simp [uploadLoop, h1, h2]

lemma uploadLoop_otherError (c : Client) (ls d m attempt f : Nat)
    (h1 : c.put attempt = PutResult.otherError) :
    uploadLoop c ls d m attempt (f + 1) =
      { success := false, attempts := 1, sleeps := [] } := by
  simp [uploadLoop, h1]

/-- The loop starting at `attempt` with `fuel` iterations left reaches a
verified success: some in-range attempt succeeds, and every attempt before it
is one the loop continues past. -/
def loopSucceeds (c : Client) (ls m attempt fuel : Nat) : Prop :=
  ∃ i, i < fuel ∧ succeedsAt c ls (attempt + i) ∧
    ∀ j, j < i → continuesAt c ls m (attempt + j)

lemma loopSucceeds_shift (c : Client) (ls m attempt f : Nat)
    (hcont : continuesAt c ls m attempt) (hnot : ¬ succeedsAt c ls attempt) :
    loopSucceeds c ls m attempt (f + 1) ↔ loopSucceeds c ls m (attempt + 1) f := by
  constructor
  · rintro ⟨i, hi, hs, hc⟩
    cases i with
    | zero => exact absurd (by simpa using hs) hnot
    | succ k =>
      refine ⟨k, by omega, ?_, ?_⟩
      · have e : attempt + 1 + k = attempt + (k + 1) := by omega
        rw [e]; exact hs
      · intro j hj
        have e : attempt + 1 + j = attempt + (j + 1) := by omega
        rw [e]; exact hc (j + 1) (by omega)
  · rintro ⟨i, hi, hs, hc⟩
    refine ⟨i + 1, by omega, ?_, ?_⟩
    · have e : attempt + (i + 1) = attempt + 1 + i := by omega
      rw [e]; exact hs
    · intro j hj
      cases j with
      | zero => simpa using hcont
      | succ k =>
        have e : attempt + (k + 1) = attempt + 1 + k := by omega
        rw [e]; exact hc k (by omega)

lemma loopSucceeds_none (c : Client) (ls m attempt f : Nat)
    (hnot : ¬ succeedsAt c ls attempt)
    (hncont : ¬ continuesAt c ls m attempt) :
    ¬ loopSucceeds c ls m attempt f := by
  rintro ⟨i, hi, hs, hc⟩
  cases i with
  | zero => exact hnot (by simpa using hs)
  | succ k => exact hncont (by simpa using hc 0 (by omega))

/-- `upload_file` returns `True` exactly when some performed attempt's put
succeeded and its verification matched the local size, all earlier attempts
being ones the loop retries past. -/
lemma uploadLoop_success_iff (c : Client) (ls d m : Nat) :
    ∀ fuel attempt,
      (uploadLoop c ls d m attempt fuel).success = true ↔
        loopSucceeds c ls m attempt fuel := by
  intro fuel
  induction fuel with
  | zero =>
    intro attempt
    simp [uploadLoop, loopSucceeds]
  | succ f ih =>
    intro attempt
    cases hput : c.put attempt with
    | ok =>
      by_cases hv : verify_upload c ls attempt = true
      · have hs : succeedsAt c ls attempt :=
          ⟨hput, (verify_upload_true_iff c ls attempt).mp hv⟩
        rw [uploadLoop_ok_verified c ls d m attempt f hput hv]
        simp only [true_iff]
        exact ⟨0, by omega, by simpa using hs, fun j hj => absurd hj (by omega)⟩
      · have hv' : verify_upload c ls attempt = false := by
          cases hb : verify_upload c ls attempt
          · rfl
          · exact absurd hb hv
        have hnot : ¬ succeedsAt c ls attempt := by
          rintro ⟨-, hh⟩
          exact hv ((verify_upload_true_iff c ls attempt).mpr hh)
        have hcont : continuesAt c ls m attempt := by
          refine Or.inr ⟨hput, fun hh => ?_⟩
          exact hv ((verify_upload_true_iff c ls attempt).mpr hh)
        rw [uploadLoop_ok_unverified c ls d m attempt f hput hv']
        exact (ih (attempt + 1)).trans
          (loopSucceeds_shift c ls m attempt f hcont hnot).symm
    | clientError =>
      have hnot : ¬ succeedsAt c ls attempt := by
        rintro ⟨h, -⟩
        rw [hput] at h
        exact PutResult.noConfusion h
      by_cases hm : attempt < m
      · have hcont : continuesAt c ls m attempt := Or.inl ⟨hput, hm⟩
        rw [uploadLoop_clientError_retry c ls d m attempt f hput hm]
        exact (ih (attempt + 1)).trans
          (loopSucceeds_shift c ls m attempt f hcont hnot).symm
      · have hncont : ¬ continuesAt c ls m attempt := by
          rintro (⟨-, hlt⟩ | ⟨h, -⟩)
          · exact hm hlt
          · rw [hput] at h
            exact PutResult.noConfusion h
        rw [uploadLoop_clientError_stop c ls d m attempt f hput hm]
        simp only [Bool.false_eq_true, false_iff]
        exact loopSucceeds_none c ls m attempt (f + 1) hnot hncont
    | otherError =>
      have hnot : ¬ succeedsAt c ls attempt := by
        rintro ⟨h, -⟩
        rw [hput] at h
        exact PutResult.noConfusion h
      have hncont : ¬ continuesAt c ls m attempt := by
        rintro (⟨h, -⟩ | ⟨h, -⟩) <;> rw [hput] at h <;>
          exact PutResult.noConfusion h
      rw [uploadLoop_otherError c ls d m attempt f hput]
      simp only [Bool.false_eq_true, false_iff]
      exact loopSucceeds_none c ls m attempt (f + 1) hnot hncont

lemma upload_file_success_iff (c : Client) (ls m d : Nat) :
    (upload_file c ls m d).success = true ↔
      ∃ i, i ≤ m ∧ succeedsAt c ls i ∧ ∀ j, j < i → continuesAt c ls m j := by
  rw [upload_file, uploadLoop_success_iff]
  constructor
  · rintro ⟨i, hi, hs, hc⟩
    exact ⟨i, by omega, by simpa using hs, fun j hj => by simpa using hc j hj⟩
  · rintro ⟨i, hi, hs, hc⟩
    exact ⟨i, by omega, by simpa using hs, fun j hj => by simpa using hc j hj⟩

lemma sleeps_cons (d attempt N : Nat) :
    d * 2 ^ attempt :: (List.range N).map (fun i => d * 2 ^ (attempt + 1 + i)) =
      (List.range (N + 1)).map (fun i => d * 2 ^ (attempt + i)) := by
  rw [List.range_succ_eq_map, List.map_cons, List.map_map]
  refine congrArg₂ List.cons ?_ ?_
  · simp
  · apply List.map_congr_left
    intro a _
    show d * 2 ^ (attempt + 1 + a) = d * 2 ^ (attempt + (a + 1))
    have e : attempt + 1 + a = attempt + (a + 1) := by omega
    rw [e]

/-- Behaviour of the retry loop against a client that raises `ClientError`
from the put on the first `N` attempts and then succeeds with passing
verification. -/
lemma uploadLoop_fail_then_ok (c : Client) (ls d m : Nat) :
    ∀ (N attempt f : Nat),
      (∀ j, j < N → c.put (attempt + j) = PutResult.clientError) →
      c.put (attempt + N) = PutResult.ok →
      verify_upload c ls (attempt + N) = true →
      attempt + N ≤ m →
      N < f →
      uploadLoop c ls d m attempt f =
        { success := true, attempts := N + 1,
          sleeps := (List.range N).map (fun i => d * 2 ^ (attempt + i)) } := by
  intro N
  induction N with
  | zero =>
    intro attempt f hfail hok hv hle hf
    obtain ⟨f', rfl⟩ : ∃ f', f = f' + 1 := ⟨f - 1, by omega⟩
    rw [uploadLoop_ok_verified c ls d m attempt f' (by simpa using hok)
      (by simpa using hv)]
    simp
  | succ N ih =>
    intro attempt f hfail hok hv hle hf
    obtain ⟨f', rfl⟩ : ∃ f', f = f' + 1 := ⟨f - 1, by omega⟩
    have h0 : c.put attempt = PutResult.clientError := by
      simpa using hfail 0 (by omega)
    have hm : attempt < m := by omega
    have eN : attempt + (N + 1) = attempt + 1 + N := by omega
    rw [uploadLoop_clientError_retry c ls d m attempt f' h0 hm,
      ih (attempt + 1) f'
        (fun j hj => by
          have h := hfail (j + 1) (by omega)
          have e : attempt + (j + 1) = attempt + 1 + j := by omega
          rwa [e] at h)
        (by rwa [eN] at hok)
        (by rwa [eN] at hv)
        (by omega) (by omega)]
    refine congrArg₂ (fun a s => UploadTrace.mk true a s) rfl ?_
    exact sleeps_cons d attempt N

/-- `upload_file` against a client that fails the put exactly `N` times and
then succeeds with passing verification, `max_retries ≥ N`. -/
lemma upload_file_fail_then_ok (c : Client) (ls m d N : Nat)
    (hfail : ∀ j, j < N → c.put j = PutResult.clientError)
    (hok : c.put N = PutResult.ok)
    (hv : verify_upload c ls N = true)
    (hle : N ≤ m) :
    upload_file c ls m d =
      { success := true, attempts := N + 1,
        sleeps := (List.range N).map (fun i => d * 2 ^ i) } := by
  rw [upload_file,
    uploadLoop_fail_then_ok c ls d m N 0 (m + 1)
      (fun j hj => by simpa using hfail j hj)
      (by simpa using hok) (by simpa using hv) (by omega) (by omega)]
  simp

/-! ## Dict lemmas -/

lemma dictGet_set (st : Registry) (p q : String) (t : Int) :
    dictGet (dictSet st p t) q = if p = q then some t else dictGet st q := by
  induction st with
  | nil => simp [dictSet, dictGet]
  | cons kv rest ih =>
    obtain ⟨k, v⟩ := kv
    by_cases hk : k = p
    · subst hk
      by_cases hq : k = q <;> simp [dictSet, dictGet, hq]
    · have hk' : ¬ p = k := fun h => hk h.symm
      by_cases hq : k = q
      · subst hq
        simp [dictSet, hk, dictGet, hk']
      · simp [dictSet, hk, dictGet, hq, ih]

lemma dictGet_pop (st : Registry) (p q : String) :
    dictGet (dictPop st p) q = if p = q then none else dictGet st q := by
  induction st with
  | nil => simp [dictPop, dictGet]
  | cons kv rest ih =>
    obtain ⟨k, v⟩ := kv
    by_cases hk : k = p
    · subst hk
      by_cases hq : k = q
      · subst hq
        simp [dictPop, dictGet, ih]
      · simp [dictPop, dictGet, hq, ih]
    · have hk' : ¬ p = k := fun h => hk h.symm
      by_cases hq : k = q
      · subst hq
        simp [dictPop, hk, dictGet, hk']
      · simp [dictPop, hk, dictGet, hq, ih]

lemma dictGet_foldl_pop (l : List String) :
    ∀ (st : Registry) (q : String),
      dictGet (l.foldl dictPop st) q =
        if q ∈ l then none else dictGet st q := by
  induction l with
  | nil => intro st q; simp
  | cons x xs ih =>
    intro st q
    simp only [List.foldl_cons, ih, dictGet_pop, List.mem_cons]
    by_cases hx : x = q
    · subst hx
      simp
    · have : ¬ q = x := fun h => hx h.symm
      by_cases hq : q ∈ xs <;> simp [hx, hq, this]

lemma dictGet_some_mem (st : Registry) (p : String) (v : Int)
    (h : dictGet st p = some v) : p ∈ st.map Prod.fst := by
  induction st with
  | nil => simp [dictGet] at h
  | cons kv rest ih =>
    obtain ⟨k, w⟩ := kv
    by_cases hk : k = p
    · subst hk
      simp
    · simp only [dictGet, hk, if_false] at h
      simp [ih h]

/-! ## Sweep lemmas -/

/-- The trace the sweep obtains for one tracked path. -/
def sweep_trace (env : SweepEnv) (p : String) : UploadTrace :=
  upload_file (env.client p) (env.file_size p) env.max_retries env.initial_delay

lemma sweepLoop_uploaded_iff (env : SweepEnv) (st : Registry) (th now : Int)
    (ks : List String) (p : String) (tr : UploadTrace) :
    (p, tr) ∈ (sweepLoop env st th now ks).uploaded ↔
      p ∈ ks ∧ env.file_exists p = true ∧ is_file_ready st th now p = true ∧
        tr = sweep_trace env p := by
  induction ks with
  | nil => simp [sweepLoop]
  | cons q rest ih =>
    by_cases hpq : p = q
    · subst hpq
      by_cases he : env.file_exists p = false
      · simp [sweepLoop, he, ih]
      · have he2 : env.file_exists p = true := by
          cases hb : env.file_exists p
          · exact absurd hb he
          · rfl
        by_cases hr : is_file_ready st th now p = true
        · simp only [sweepLoop, if_neg he, if_pos hr]
          simp [ih, he2, hr, sweep_trace, Prod.mk.injEq]
        · have hr' : is_file_ready st th now p = false := by
            cases hb : is_file_ready st th now p
            · rfl
            · exact absurd hb hr
          simp [sweepLoop, if_neg he, hr', ih]
    · by_cases he : env.file_exists q = false
      · simp [sweepLoop, he, ih, hpq]
      · by_cases hr : is_file_ready st th now q = true
        · simp [sweepLoop, if_neg he, hr, ih, hpq, Prod.mk.injEq]
        · simp [sweepLoop, if_neg he, if_neg hr, ih, hpq]

lemma sweepLoop_deleted_iff (env : SweepEnv) (st : Registry) (th now : Int)
    (ks : List String) (p : String) :
    p ∈ (sweepLoop env st th now ks).deleted ↔
      p ∈ ks ∧ env.file_exists p = true ∧ is_file_ready st th now p = true ∧
        (sweep_trace env p).success = true := by
  induction ks with
  | nil => simp [sweepLoop]
  | cons q rest ih =>
    by_cases hpq : p = q
    · subst hpq
      by_cases he : env.file_exists p = false
      · simp [sweepLoop, he, ih]
      · have he2 : env.file_exists p = true := by
          cases hb : env.file_exists p
          · exact absurd hb he
          · rfl
        by_cases hr : is_file_ready st th now p = true
        · by_cases hs : (sweep_trace env p).success = true
          · simp only [sweepLoop, if_neg he, if_pos hr, sweep_trace] at hs ⊢
            simp [hs, ih, he2, hr]
          · have hs' : (sweep_trace env p).success = false := by
              cases hb : (sweep_trace env p).success
              · rfl
              · exact absurd hb hs
            simp only [sweepLoop, if_neg he, if_pos hr, sweep_trace] at hs' ⊢
            simp [hs', ih, sweep_trace]
        · have hr' : is_file_ready st th now p = false := by
            cases hb : is_file_ready st th now p
            · rfl
            · exact absurd hb hr
          simp [sweepLoop, if_neg he, hr', ih]
    · by_cases he : env.file_exists q = false
      · simp [sweepLoop, he, ih, hpq]
      · by_cases hr : is_file_ready st th now q = true
        · by_cases hs : (sweep_trace env q).success = true
          · simp only [sweepLoop, if_neg he, if_pos hr, sweep_trace] at hs ⊢
            simp [hs, ih, hpq, sweep_trace]
          · have hs' : (sweep_trace env q).success = false := by
              cases hb : (sweep_trace env q).success
              · rfl
              · exact absurd hb hs
            simp only [sweepLoop, if_neg he, if_pos hr, sweep_trace] at hs' ⊢
            simp [hs', ih, hpq, sweep_trace]
        · simp [sweepLoop, if_neg he, if_neg hr, ih, hpq]

lemma sweepLoop_remove_iff (env : SweepEnv) (st : Registry) (th now : Int)
    (ks : List String) (p : String) :
    p ∈ (sweepLoop env st th now ks).remove ↔
      p ∈ ks ∧ (env.file_exists p = false ∨ is_file_ready st th now p = true) := by
  induction ks with
  | nil => simp [sweepLoop]
  | cons q rest ih =>
    by_cases hpq : p = q
    · subst hpq
      by_cases he : env.file_exists p = false
      · simp [sweepLoop, he, ih]
      · have he2 : env.file_exists p = true := by
          cases hb : env.file_exists p
          · exact absurd hb he
          · rfl
        by_cases hr : is_file_ready st th now p = true
        · simp [sweepLoop, if_neg he, hr, ih]
        · have hr' : is_file_ready st th now p = false := by
            cases hb : is_file_ready st th now p
            · rfl
            · exact absurd hb hr
          simp [sweepLoop, if_neg he, hr', ih, he2]
    · by_cases he : env.file_exists q = false
      · simp [sweepLoop, he, ih, hpq]
      · by_cases hr : is_file_ready st th now q = true
        · simp [sweepLoop, if_neg he, hr, ih, hpq]
        · simp [sweepLoop, if_neg he, if_neg hr, ih, hpq]

lemma process_uploaded_iff (env : SweepEnv) (st : Registry) (th now : Int)
    (p : String) (tr : UploadTrace) :
    (p, tr) ∈ (process_pending_files env st th now).uploaded ↔
      p ∈ st.map Prod.fst ∧ env.file_exists p = true ∧
        is_file_ready st th now p = true ∧ tr = sweep_trace env p :=
  sweepLoop_uploaded_iff env st th now (st.map Prod.fst) p tr

lemma process_deleted_iff (env : SweepEnv) (st : Registry) (th now : Int)
    (p : String) :
    p ∈ (process_pending_files env st th now).deleted ↔
      p ∈ st.map Prod.fst ∧ env.file_exists p = true ∧
        is_file_ready st th now p = true ∧ (sweep_trace env p).success = true :=
  sweepLoop_deleted_iff env st th now (st.map Prod.fst) p

lemma process_registry_get (env : SweepEnv) (st : Registry) (th now : Int)
    (q : String) :
    dictGet (process_pending_files env st th now).registry q =
      if q ∈ st.map Prod.fst ∧
          (env.file_exists q = false ∨ is_file_ready st th now q = true)
      then none else dictGet st q := by
  show dictGet ((sweepLoop env st th now (st.map Prod.fst)).remove.foldl dictPop st) q = _
  rw [dictGet_foldl_pop]
  by_cases h : q ∈ (sweepLoop env st th now (st.map Prod.fst)).remove
  · rw [if_pos h, if_pos ((sweepLoop_remove_iff env st th now _ q).mp h)]
  · rw [if_neg h, if_neg (fun hc => h ((sweepLoop_remove_iff env st th now _ q).mpr hc))]

lemma process_uploaded_fst_iff (env : SweepEnv) (st : Registry) (th now : Int)
    (p : String) :
    p ∈ (process_pending_files env st th now).uploaded.map Prod.fst ↔
      p ∈ st.map Prod.fst ∧ env.file_exists p = true ∧
        is_file_ready st th now p = true := by
  constructor
  · intro hm
    obtain ⟨⟨p', tr⟩, hmem, hfst⟩ := List.mem_map.mp hm
    simp only at hfst
    subst hfst
    obtain ⟨h1, h2, h3, -⟩ := (process_uploaded_iff env st th now p' tr).mp hmem
    exact ⟨h1, h2, h3⟩
  · rintro ⟨h1, h2, h3⟩
    exact List.mem_map.mpr ⟨(p, sweep_trace env p),
      (process_uploaded_iff env st th now p _).mpr ⟨h1, h2, h3, rfl⟩, rfl⟩

/-- Behaviour of the retry loop against a client that raises `ClientError`
from the put on every attempt. -/
lemma uploadLoop_allFail (c : Client) (ls d m : Nat)
    (h : ∀ i, c.put i = PutResult.clientError) :
    ∀ f attempt, attempt + f = m + 1 → 0 < f →
      uploadLoop c ls d m attempt f =
        { success := false, attempts := f,
          sleeps := (List.range (f - 1)).map (fun i => d * 2 ^ (attempt + i)) } := by
  intro f
  induction f with
  | zero =>
    intro attempt h1 h2
    omega
  | succ f ih =>
    intro attempt h1 h2
    by_cases hf : f = 0
    · subst hf
      have hm : ¬ attempt < m := by omega
      rw [uploadLoop_clientError_stop c ls d m attempt 0 (h attempt) hm]
      simp
    · have hm : attempt < m := by omega
      rw [uploadLoop_clientError_retry c ls d m attempt f (h attempt) hm,
        ih (attempt + 1) (by omega) (by omega)]
      refine congrArg₂ (fun a s => UploadTrace.mk false a s) rfl ?_
      have hf' : f - 1 + 1 = f := by omega
      calc d * 2 ^ attempt ::
            (List.range (f - 1)).map (fun i => d * 2 ^ (attempt + 1 + i))
          = (List.range (f - 1 + 1)).map (fun i => d * 2 ^ (attempt + i)) :=
            sleeps_cons d attempt (f - 1)
        _ = (List.range (f + 1 - 1)).map (fun i => d * 2 ^ (attempt + i)) := by
            rw [hf', Nat.add_sub_cancel]

/-- `upload_file` against a client whose put always raises `ClientError`:
the returned value is `False` after `max_retries + 1` put attempts, with the
full exponential back-off ladder slept between them. -/
lemma upload_file_allFail (c : Client) (ls m d : Nat)
    (h : ∀ i, c.put i = PutResult.clientError) :
    upload_file c ls m d =
      { success := false, attempts := m + 1,
        sleeps := (List.range m).map (fun i => d * 2 ^ i) } := by
  rw [upload_file, uploadLoop_allFail c ls d m h (m + 1) 0 (by omega) (by omega)]
  simp

/-! ## Reconciliation lemmas -/

lemma scanLoop_processed_fst (env : ScanEnv) :
    ∀ fs : List String, (scanLoop env fs).processed.map Prod.fst = fs := by
  intro fs
  induction fs with
  | nil => simp [scanLoop]
  | cons f rest ih =>
    by_cases hs : (scan_trace env f).success = true
    · simp [scanLoop, hs, ih]
    · have hs' : (scan_trace env f).success = false := by
        cases hb : (scan_trace env f).success
        · rfl
        · exact absurd hb hs
      simp [scanLoop, hs', ih]

lemma scanLoop_counts (env : ScanEnv) :
    ∀ fs : List String,
      (scanLoop env fs).success_count + (scanLoop env fs).failure_count =
        fs.length := by
  intro fs
  induction fs with
  | nil => simp [scanLoop]
  | cons f rest ih =>
    by_cases hs : (scan_trace env f).success = true
    · simp only [scanLoop, hs, if_true, List.length_cons]
      omega
    · have hs' : (scan_trace env f).success = false := by
        cases hb : (scan_trace env f).success
        · rfl
        · exact absurd hb hs
      simp only [scanLoop, hs', Bool.false_eq_true, if_false, List.length_cons]
      omega

lemma scanLoop_success_count (env : ScanEnv) :
    ∀ fs : List String,
      (scanLoop env fs).success_count =
        (fs.filter (fun f => (scan_trace env f).success)).length := by
  intro fs
  induction fs with
  | nil => simp [scanLoop]
  | cons f rest ih =>
    by_cases hs : (scan_trace env f).success = true
    · simp [scanLoop, hs, ih, List.filter_cons]
    · have hs' : (scan_trace env f).success = false := by
        cases hb : (scan_trace env f).success
        · rfl
        · exact absurd hb hs
      simp [scanLoop, hs', ih, List.filter_cons]

lemma scanLoop_failure_count (env : ScanEnv) :
    ∀ fs : List String,
      (scanLoop env fs).failure_count =
        (fs.filter (fun f => !(scan_trace env f).success)).length := by
  intro fs
  induction fs with
  | nil => simp [scanLoop]
  | cons f rest ih =>
    by_cases hs : (scan_trace env f).success = true
    · simp [scanLoop, hs, ih, List.filter_cons]
    · have hs' : (scan_trace env f).success = false := by
        cases hb : (scan_trace env f).success
        · rfl
        · exact absurd hb hs
      simp [scanLoop, hs', ih, List.filter_cons]

lemma scanLoop_failure_zero_iff (env : ScanEnv) :
    ∀ fs : List String,
      (scanLoop env fs).failure_count = 0 ↔
        ∀ f ∈ fs, (scan_trace env f).success = true := by
  intro fs
  induction fs with
  | nil => simp [scanLoop]
  | cons f rest ih =>
    by_cases hs : (scan_trace env f).success = true
    · simp [scanLoop, hs, ih]
    · have hs' : (scan_trace env f).success = false := by
        cases hb : (scan_trace env f).success
        · rfl
        · exact absurd hb hs
      simp [scanLoop, hs', ih]

lemma scanLoop_deleted_iff (env : ScanEnv) (p : String) :
    ∀ fs : List String,
      p ∈ (scanLoop env fs).deleted ↔
        p ∈ fs ∧ (scan_trace env p).success = true := by
  intro fs
  induction fs with
  | nil => simp [scanLoop]
  | cons f rest ih =>
    by_cases hpf : p = f
    · subst hpf
      by_cases hs : (scan_trace env p).success = true
      · simp [scanLoop, hs, ih]
      · have hs' : (scan_trace env p).success = false := by
          cases hb : (scan_trace env p).success
          · rfl
          · exact absurd hb hs
        simp [scanLoop, hs', ih]
    · by_cases hs : (scan_trace env f).success = true
      · simp [scanLoop, hs, ih, hpf]
      · have hs' : (scan_trace env f).success = false := by
          cases hb : (scan_trace env f).success
          · rfl
          · exact absurd hb hs
        simp [scanLoop, hs', ih, hpf]

lemma dictGet_none_iff (st : Registry) (p : String) :
    dictGet st p = none ↔ p ∉ st.map Prod.fst := by
  induction st with
  | nil => simp [dictGet]
  | cons kv rest ih =>
    obtain ⟨k, v⟩ := kv
    by_cases hk : k = p
    · subst hk
      simp [dictGet]
    · have hk' : ¬ p = k := fun h => hk h.symm
      simp [dictGet, hk, ih, hk']

/-! ## Concrete instances used by witnesses -/

/-- A client whose put raises `ClientError` on every attempt. -/
def alwaysFailClient : Client :=
  { put := fun _ => PutResult.clientError, head := fun _ => HeadResult.headError }

/-- A client whose put always succeeds but whose first verification sees the
wrong remote size. -/
def verifyFailOnceClient : Client :=
  { put := fun _ => PutResult.ok,
    head := fun i => if i = 0 then HeadResult.size 9 else HeadResult.size 10 }

/-- A client whose put raises a non-`ClientError` exception. -/
def otherErrorClient : Client :=
  { put := fun _ => PutResult.otherError, head := fun _ => HeadResult.headError }

/-- A client that fails the put twice and then succeeds with matching size. -/
def failTwiceClient : Client :=
  { put := fun i => if i < 2 then PutResult.clientError else PutResult.ok,
    head := fun _ => HeadResult.size 1000 }

/-- A sweep environment where every path exists and every upload fails. -/
def alwaysFailEnv : SweepEnv :=
  { file_exists := fun _ => true, file_size := fun _ => 10,
    client := fun _ => alwaysFailClient, max_retries := 3, initial_delay := 5 }

/-- A sweep environment where no path exists on disk. -/
def goneEnv : SweepEnv :=
  { file_exists := fun _ => false, file_size := fun _ => 10,
    client := fun _ => alwaysFailClient, max_retries := 3, initial_delay := 5 }

/-! ## Claims -/

/-- C1: in a watch sweep and in a reconciliation pass alike, the local file
is deleted if and only if its upload call returned verified success: some
performed put attempt returned normally and the subsequent head-metadata
check reported a remote content length equal to the local file's size (every
earlier attempt being one the retry loop continues past); in particular a
file is never deleted after an unverified or failed upload. -/
theorem C1_delete_iff_verified :
    (∀ (env : SweepEnv) (st : Registry) (th now : Int) (p : String),
      p ∈ (process_pending_files env st th now).deleted ↔
        (p ∈ st.map Prod.fst ∧ env.file_exists p = true ∧
          is_file_ready st th now p = true ∧
          ∃ i, i ≤ env.max_retries ∧
            succeedsAt (env.client p) (env.file_size p) i ∧
            ∀ j, j < i →
              continuesAt (env.client p) (env.file_size p) env.max_retries j)) ∧
    (∀ (env : ScanEnv) (p : String),
      p ∈ (upload_existing_files env).1.deleted ↔
        (p ∈ matching_files env.dir_files env.exts ∧
          ∃ i, i ≤ env.max_retries ∧
            succeedsAt (env.client p) (env.file_size p) i ∧
            ∀ j, j < i →
              continuesAt (env.client p) (env.file_size p) env.max_retries j)) := by
  constructor
  · intro env st th now p
    rw [process_deleted_iff, sweep_trace, upload_file_success_iff]
  · intro env p
    show p ∈ (scanLoop env (matching_files env.dir_files env.exts)).deleted ↔ _
    rw [scanLoop_deleted_iff, scan_trace, upload_file_success_iff]

/-- C2: with `max_retries = 3` and a client whose put fails on every attempt,
`upload_file` returns failure after exactly 4 put attempts, and no sweep
deletes the corresponding local file. -/
theorem C2_always_fail_four_attempts (c : Client)
    (h : ∀ i, c.put i = PutResult.clientError) (ls d : Nat) :
    (upload_file c ls 3 d).success = false ∧
    (upload_file c ls 3 d).attempts = 4 ∧
    ∀ (env : SweepEnv) (st : Registry) (th now : Int) (p : String),
      env.client p = c → env.max_retries = 3 →
      p ∉ (process_pending_files env st th now).deleted := by
  have ht := upload_file_allFail c ls 3 d h
  refine ⟨by rw [ht], by rw [ht], ?_⟩
  intro env st th now p hc hm hmem
  obtain ⟨-, -, -, hs⟩ := (process_deleted_iff env st th now p).mp hmem
  rw [sweep_trace, hc, hm,
    upload_file_allFail c (env.file_size p) 3 env.initial_delay h] at hs
  exact Bool.noConfusion hs

theorem C2_witness :
    (upload_file alwaysFailClient 10 3 5).success = false ∧
    (upload_file alwaysFailClient 10 3 5).attempts = 4 ∧
    "a.mp4" ∉ (process_pending_files alwaysFailEnv [("a.mp4", 0)] 2 10).deleted := by
  have h := C2_always_fail_four_attempts alwaysFailClient (fun _ => rfl) 10 5
  exact ⟨h.1, h.2.1, h.2.2 alwaysFailEnv [("a.mp4", 0)] 2 10 "a.mp4" rfl rfl⟩

/-- C3: against a client whose put fails exactly `N` times and then succeeds
with passing verification, with `max_retries ≥ N`, the task succeeds after
exactly `N + 1` put attempts, sleeping `initial_delay * 2 ^ 0, ...,
initial_delay * 2 ^ (N - 1)` seconds between consecutive attempts. -/
theorem C3_fail_n_then_succeed (N m d ls : Nat) (c : Client)
    (hfail : ∀ j, j < N → c.put j = PutResult.clientError)
    (hok : c.put N = PutResult.ok)
    (hhead : c.head N = HeadResult.size ls)
    (hle : N ≤ m) :
    upload_file c ls m d =
      { success := true, attempts := N + 1,
        sleeps := (List.range N).map (fun i => d * 2 ^ i) } :=
  upload_file_fail_then_ok c ls m d N hfail hok
    ((verify_upload_true_iff c ls N).mpr hhead) hle

theorem C3_witness :
    upload_file failTwiceClient 1000 3 5 =
      { success := true, attempts := 3, sleeps := [5, 10] } := by
  have h := C3_fail_n_then_succeed 2 3 5 1000 failTwiceClient
    (fun j hj => by simp [failTwiceClient, hj]) (by decide) rfl (by omega)
  rw [h]
  decide

/-- C4 counterexample: with `max_retries = 3` (attempts remaining), a failed
verification after a successful put IS retried but with no back-off sleep
before the retry (two attempts, empty sleep list), and a put failing with a
non-`ClientError` exception is not retried at all (one attempt) — refuting
both "each such retry is preceded by the exponential backoff delay" and
"the put operation errors (of any kind) ... the executor performs another
attempt". -/
theorem C4_counterexample :
    upload_file verifyFailOnceClient 10 3 5 =
      { success := true, attempts := 2, sleeps := [] } ∧
    upload_file otherErrorClient 10 3 5 =
      { success := false, attempts := 1, sleeps := [] } :=
  ⟨by decide, by decide⟩

/-- C4 amended: while attempts remain below the `max_retries` bound, a put
failing with `ClientError` is retried after the exponential back-off sleep
`initial_delay * 2 ^ attempt`; a failed verification after a successful put
is retried immediately with no sleep; a put failing with any other exception
terminates the task at once with failure; and a `ClientError` at the bound is
terminal. -/
theorem C4_amended (c : Client) (ls d m attempt f : Nat) :
    (c.put attempt = PutResult.clientError → attempt < m →
      uploadLoop c ls d m attempt (f + 1) =
        { success := (uploadLoop c ls d m (attempt + 1) f).success,
          attempts := (uploadLoop c ls d m (attempt + 1) f).attempts + 1,
          sleeps := d * 2 ^ attempt ::
            (uploadLoop c ls d m (attempt + 1) f).sleeps }) ∧
    (c.put attempt = PutResult.ok → verify_upload c ls attempt = false →
      uploadLoop c ls d m attempt (f + 1) =
        { success := (uploadLoop c ls d m (attempt + 1) f).success,
          attempts := (uploadLoop c ls d m (attempt + 1) f).attempts + 1,
          sleeps := (uploadLoop c ls d m (attempt + 1) f).sleeps }) ∧
    (c.put attempt = PutResult.otherError →
      uploadLoop c ls d m attempt (f + 1) =
        { success := false, attempts := 1, sleeps := [] }) ∧
    (c.put attempt = PutResult.clientError → ¬ attempt < m →
      uploadLoop c ls d m attempt (f + 1) =
        { success := false, attempts := 1, sleeps := [] }) :=
  ⟨fun h1 h2 => uploadLoop_clientError_retry c ls d m attempt f h1 h2,
   fun h1 h2 => uploadLoop_ok_unverified c ls d m attempt f h1 h2,
   fun h1 => uploadLoop_otherError c ls d m attempt f h1,
   fun h1 h2 => uploadLoop_clientError_stop c ls d m attempt f h1 h2⟩

theorem C4_witness :
    uploadLoop alwaysFailClient 10 5 3 0 (3 + 1) =
      { success := (uploadLoop alwaysFailClient 10 5 3 1 3).success,
        attempts := (uploadLoop alwaysFailClient 10 5 3 1 3).attempts + 1,
        sleeps := 5 * 2 ^ 0 :: (uploadLoop alwaysFailClient 10 5 3 1 3).sleeps } ∧
    uploadLoop otherErrorClient 10 5 3 0 (3 + 1) =
      { success := false, attempts := 1, sleeps := [] } :=
  ⟨(C4_amended alwaysFailClient 10 5 3 0 3).1 rfl (by decide),
   (C4_amended otherErrorClient 10 5 3 0 3).2.2.1 rfl⟩

/-- C5: when the put succeeds but `head_object` reports a content length
different from the local size, or the metadata fetch raises `ClientError`,
verification returns `False`, the attempt does not yield success, and the
loop re-enters the retry ladder having consumed one bounded attempt. -/
theorem C5_verify_failure_consumes_attempt (c : Client) (ls d m attempt f : Nat)
    (hok : c.put attempt = PutResult.ok)
    (hbad : (∃ n, c.head attempt = HeadResult.size n ∧ n ≠ ls) ∨
      c.head attempt = HeadResult.headError) :
    verify_upload c ls attempt = false ∧
    uploadLoop c ls d m attempt (f + 1) =
      { success := (uploadLoop c ls d m (attempt + 1) f).success,
        attempts := (uploadLoop c ls d m (attempt + 1) f).attempts + 1,
        sleeps := (uploadLoop c ls d m (attempt + 1) f).sleeps } := by
  have hv : verify_upload c ls attempt = false := by
    rcases hbad with ⟨n, hn, hne⟩ | hh
    · have hne' : ¬ ls = n := fun h => hne h.symm
      simp [verify_upload, hn, hne']
    · simp [verify_upload, hh]
  exact ⟨hv, uploadLoop_ok_unverified c ls d m attempt f hok hv⟩

theorem C5_witness :
    verify_upload verifyFailOnceClient 10 0 = false ∧
    uploadLoop verifyFailOnceClient 10 5 3 0 (3 + 1) =
      { success := (uploadLoop verifyFailOnceClient 10 5 3 1 3).success,
        attempts := (uploadLoop verifyFailOnceClient 10 5 3 1 3).attempts + 1,
        sleeps := (uploadLoop verifyFailOnceClient 10 5 3 1 3).sleeps } :=
  C5_verify_failure_consumes_attempt verifyFailOnceClient 10 5 3 0 3 rfl
    (Or.inl ⟨9, rfl, by decide⟩)

/-- C6: a fresh non-directory modify event on a tracked path resets its
timestamp to the event time; a sweep before `age_threshold` seconds have
passed since that event finds the file not ready and does not emit it, and
the file becomes eligible exactly when `age_threshold` seconds have passed
since the latest event. -/
theorem C6_modify_resets_clock (st : Registry) (p : String)
    (t_old now_ev : Int) (htracked : dictGet st p = some t_old) :
    dictGet (on_modified st ⟨false, p⟩ now_ev) p = some now_ev ∧
    (∀ th now : Int, now - now_ev < th →
      is_file_ready (on_modified st ⟨false, p⟩ now_ev) th now p = false ∧
      ∀ env : SweepEnv,
        p ∉ (process_pending_files env (on_modified st ⟨false, p⟩ now_ev)
          th now).uploaded.map Prod.fst) ∧
    (∀ th now : Int,
      is_file_ready (on_modified st ⟨false, p⟩ now_ev) th now p = true ↔
        th ≤ now - now_ev) := by
  have hreg : on_modified st ⟨false, p⟩ now_ev = dictSet st p now_ev := by
    simp [on_modified, htracked]
  have hget : dictGet (on_modified st ⟨false, p⟩ now_ev) p = some now_ev := by
    rw [hreg, dictGet_set]
    simp
  refine ⟨hget, ?_, ?_⟩
  · intro th now hlt
    have hready : is_file_ready (on_modified st ⟨false, p⟩ now_ev) th now p
        = false := by
      simp only [is_file_ready, hget]
      simp
      omega
    refine ⟨hready, ?_⟩
    intro env hmem
    obtain ⟨-, -, hr⟩ :=
      (process_uploaded_fst_iff env _ th now p).mp hmem
    rw [hready] at hr
    exact Bool.noConfusion hr
  · intro th now
    simp only [is_file_ready, hget]
    simp

theorem C6_witness :
    dictGet (on_modified [("a.mp4", 0)] ⟨false, "a.mp4"⟩ 1) "a.mp4" = some 1 ∧
    is_file_ready (on_modified [("a.mp4", 0)] ⟨false, "a.mp4"⟩ 1) 2 2 "a.mp4"
      = false ∧
    "a.mp4" ∉ (process_pending_files alwaysFailEnv
      (on_modified [("a.mp4", 0)] ⟨false, "a.mp4"⟩ 1) 2 2).uploaded.map Prod.fst ∧
    (is_file_ready (on_modified [("a.mp4", 0)] ⟨false, "a.mp4"⟩ 1) 2 3 "a.mp4"
      = true ↔ (2 : Int) ≤ 3 - 1) := by
  have h := C6_modify_resets_clock [("a.mp4", 0)] "a.mp4" 0 1 rfl
  exact ⟨h.1, (h.2.1 2 2 (by decide)).1, (h.2.1 2 2 (by decide)).2 alwaysFailEnv,
    h.2.2 2 3⟩

/-- C7 counterexample: a non-directory `modified` event on a path whose
extension is allow-listed but which is not currently tracked leaves the
registry unchanged — `on_modified` does not create the `lastTouched` entry
that the claim says every such event records. -/
theorem C7_counterexample :
    is_video_file [".mp4"] "a.mp4" = true ∧
    on_modified ([] : Registry) ⟨false, "a.mp4"⟩ 5 = [] ∧
    dictGet (on_modified ([] : Registry) ⟨false, "a.mp4"⟩ 5) "a.mp4" = none :=
  ⟨by decide, rfl, rfl⟩

/-- C7 amended: a non-directory `created` event on an allow-listed path sets
`lastTouched[path] = now`; a non-directory `modified` event does so only when
the path is already tracked, and leaves the registry unchanged otherwise,
even when its extension is allow-listed; directory events and `created`
events with non-allow-listed extensions leave the registry unchanged. -/
theorem C7_amended (exts : List String) (st : Registry) (path : String)
    (now : Int) :
    (is_video_file exts path = true →
      on_created exts st ⟨false, path⟩ now = dictSet st path now) ∧
    (is_video_file exts path = false →
      on_created exts st ⟨false, path⟩ now = st) ∧
    on_created exts st ⟨true, path⟩ now = st ∧
    (∀ t, dictGet st path = some t →
      on_modified st ⟨false, path⟩ now = dictSet st path now) ∧
    (dictGet st path = none → on_modified st ⟨false, path⟩ now = st) ∧
    on_modified st ⟨true, path⟩ now = st := by
  refine ⟨?_, ?_, ?_, ?_, ?_, ?_⟩
  · intro h
    simp [on_created, h]
  · intro h
    simp [on_created, h]
  · simp [on_created]
  · intro t h
    simp [on_modified, h]
  · intro h
    simp [on_modified, h]
  · simp [on_modified]

theorem C7_witness :
    on_created [".mp4"] [] ⟨false, "a.mp4"⟩ 7 = dictSet [] "a.mp4" 7 ∧
    on_created [".mp4"] [] ⟨false, "a.avi"⟩ 7 = [] ∧
    on_modified [("a.mp4", 0)] ⟨false, "a.mp4"⟩ 7 =
      dictSet [("a.mp4", 0)] "a.mp4" 7 ∧
    on_modified ([] : Registry) ⟨false, "a.mp4"⟩ 7 = [] :=
  ⟨(C7_amended [".mp4"] [] "a.mp4" 7).1 (by decide),
   (C7_amended [".mp4"] [] "a.avi" 7).2.1 (by decide),
   (C7_amended [".mp4"] [("a.mp4", 0)] "a.mp4" 7).2.2.2.1 0 rfl,
   (C7_amended [".mp4"] [] "a.mp4" 7).2.2.2.2.1 rfl⟩

/-- C8: a tracked path that no longer exists on disk at sweep time is
removed from tracking without an upload being attempted (and with no error
channel in the control flow), and an upload task is emitted only for paths
that exist and meet the age threshold. -/
theorem C8_missing_file_dropped (env : SweepEnv) (st : Registry)
    (th now : Int) (p : String)
    (htracked : p ∈ st.map Prod.fst)
    (hgone : env.file_exists p = false) :
    dictGet (process_pending_files env st th now).registry p = none ∧
    p ∉ (process_pending_files env st th now).uploaded.map Prod.fst ∧
    ∀ q tr, (q, tr) ∈ (process_pending_files env st th now).uploaded →
      env.file_exists q = true ∧ is_file_ready st th now q = true := by
  refine ⟨?_, ?_, ?_⟩
  · rw [process_registry_get, if_pos ⟨htracked, Or.inl hgone⟩]
  · intro hmem
    obtain ⟨-, hx, -⟩ := (process_uploaded_fst_iff env st th now p).mp hmem
    rw [hgone] at hx
    exact Bool.noConfusion hx
  · intro q tr hmem
    obtain ⟨-, hx, hr, -⟩ := (process_uploaded_iff env st th now q tr).mp hmem
    exact ⟨hx, hr⟩

theorem C8_witness :
    dictGet (process_pending_files goneEnv [("a.mp4", 0)] 2 10).registry
      "a.mp4" = none ∧
    "a.mp4" ∉ (process_pending_files goneEnv [("a.mp4", 0)] 2 10).uploaded.map
      Prod.fst := by
  have h := C8_missing_file_dropped goneEnv [("a.mp4", 0)] 2 10 "a.mp4"
    (by decide) rfl
  exact ⟨h.1, h.2.1⟩

/-- C9: the reconciliation pass processes exactly the glob candidates of the
allow-list in order (never halting early), its success and failure counts sum
to the number of candidates, the failure count is the number of candidates
whose upload terminally failed, and the process exit status is 0 if and only
if no task terminally failed. -/
theorem C9_reconciliation_summary (env : ScanEnv) :
    (upload_existing_files env).1.processed.map Prod.fst =
      matching_files env.dir_files env.exts ∧
    (upload_existing_files env).1.success_count +
      (upload_existing_files env).1.failure_count =
        (matching_files env.dir_files env.exts).length ∧
    (upload_existing_files env).1.failure_count =
      ((matching_files env.dir_files env.exts).filter
        (fun f => !(scan_trace env f).success)).length ∧
    (reconcile_exit env = 0 ↔
      ∀ f ∈ matching_files env.dir_files env.exts,
        (scan_trace env f).success = true) := by
  refine ⟨scanLoop_processed_fst env _, scanLoop_counts env _,
    scanLoop_failure_count env _, ?_⟩
  rw [← scanLoop_failure_zero_iff env (matching_files env.dir_files env.exts),
    reconcile_exit]
  by_cases hz : (scanLoop env (matching_files env.dir_files env.exts)).failure_count = 0
  · have hb : (upload_existing_files env).2 = true := by
      simp [upload_existing_files, hz]
    simp [hb, hz]
  · have hb : (upload_existing_files env).2 = false := by
      simp [upload_existing_files, hz]
    simp [hb, hz]

/-- C10: after a sweep processes a ready file, the path is removed from
tracking regardless of the upload's outcome, and a later sweep over the
resulting registry never uploads it again (absent a new filesystem event
re-registering it). -/
theorem C10_processed_path_untracked (env : SweepEnv) (st : Registry)
    (th now : Int) (p : String)
    (htracked : p ∈ st.map Prod.fst)
    (_hexist : env.file_exists p = true)
    (hready : is_file_ready st th now p = true) :
    dictGet (process_pending_files env st th now).registry p = none ∧
    ∀ (env2 : SweepEnv) (th2 now2 : Int),
      p ∉ (process_pending_files env2
        (process_pending_files env st th now).registry th2
          now2).uploaded.map Prod.fst := by
  have hreg : dictGet (process_pending_files env st th now).registry p
      = none := by
    rw [process_registry_get, if_pos ⟨htracked, Or.inr hready⟩]
  refine ⟨hreg, ?_⟩
  intro env2 th2 now2 hmem
  obtain ⟨hmem', -, -⟩ := (process_uploaded_fst_iff env2 _ th2 now2 p).mp hmem
  exact absurd hmem' ((dictGet_none_iff _ p).mp hreg)

theorem C10_witness :
    dictGet (process_pending_files alwaysFailEnv [("a.mp4", 0)] 2 10).registry
      "a.mp4" = none ∧
    "a.mp4" ∉ (process_pending_files alwaysFailEnv
      (process_pending_files alwaysFailEnv [("a.mp4", 0)] 2 10).registry 2
        11).uploaded.map Prod.fst := by
  have h := C10_processed_path_untracked alwaysFailEnv [("a.mp4", 0)] 2 10
    "a.mp4" (by decide) rfl (by decide)
  exact ⟨h.1, h.2 alwaysFailEnv 2 11⟩

example : splitextExtension "/video/a.mp4" = ".mp4" := by decide
example : splitextExtension "clip.tar.gz" = ".gz" := by decide
example : splitextExtension ".bashrc" = "" := by decide
example : is_video_file [".mp4", ".MP4"] "b.MP4" = true := by decide
example : is_video_file [".mp4", ".MP4"] "b.avi" = false := by decide
example : glob_matches ["a.mp4", "b.avi", ".h.mp4"] ".mp4" = ["a.mp4"] := by decide
